import Mathlib

/-! Serial GC specialized oop closures.

Shallow embedding of `src/hotspot/share/gc/serial/serial_specialized_oop_closures.hpp`.

The header consists of five forward class declarations and three function-like
preprocessor macros.  Each macro takes one argument `f` (itself the name of a
two-argument function-like macro) and expands to the juxtaposition of the
invocations `f(Class,_nv)` listed in its body.  A macro is embedded as a Lean
function taking `f` and returning the concatenation of the token sequences
produced by those invocations, in the order of the macro body.
-/

namespace SerialSpecializedOopClosures

universe u

/-! ## Data model -/

/-- A preprocessor identifier token (a class name or a method-name suffix). -/
abbrev Ident := String

/-- The two comment headings under which the forward declarations are placed. -/
inductive Heading where
  | DefNew
  | MarkSweep
  deriving DecidableEq

/-- The forward declarations of the header, in file order, each with the heading
comment it is placed under. -/
def forwardDeclarations : List (Heading × Ident) :=
  [ (Heading.DefNew, "ScanClosure"),
    (Heading.DefNew, "FastScanClosure"),
    (Heading.DefNew, "FilteringClosure"),
    (Heading.MarkSweep, "MarkAndPushClosure"),
    (Heading.MarkSweep, "AdjustPointerClosure") ]

/-- The class names forward-declared under a given heading. -/
def declaredUnder (h : Heading) : List Ident :=
  (forwardDeclarations.filter (fun d => decide (d.1 = h))).map Prod.snd

/-- All forward-declared class names. -/
def declaredClasses : List Ident :=
  forwardDeclarations.map Prod.snd

/-! ## The three macros -/

/-- Macro `SPECIALIZED_OOP_OOP_ITERATE_CLOSURES_S(f)`. -/
def SPECIALIZED_OOP_OOP_ITERATE_CLOSURES_S {α : Type u} (f : Ident → Ident → List α) : List α :=
  f "ScanClosure" "_nv" ++
  f "FastScanClosure" "_nv" ++
  f "FilteringClosure" "_nv"

/-- Macro `SPECIALIZED_OOP_OOP_ITERATE_CLOSURES_MS(f)`. -/
def SPECIALIZED_OOP_OOP_ITERATE_CLOSURES_MS {α : Type u} (f : Ident → Ident → List α) : List α :=
  f "MarkAndPushClosure" "_nv" ++
  f "AdjustPointerClosure" "_nv"

/-- Macro `SPECIALIZED_SINCE_SAVE_MARKS_CLOSURES_YOUNG_S(f)`. -/
def SPECIALIZED_SINCE_SAVE_MARKS_CLOSURES_YOUNG_S {α : Type u} (f : Ident → Ident → List α) : List α :=
  f "ScanClosure" "_nv" ++
  f "FastScanClosure" "_nv"

/-- The three groupings (macros) defined by the header. -/
inductive Grouping where
  | S
  | MS
  | YOUNG_S
  deriving DecidableEq

/-- Expansion of the macro that defines a grouping, applied to the macro argument `f`. -/
def Grouping.expand {α : Type u} (g : Grouping) (f : Ident → Ident → List α) : List α :=
  match g with
  | Grouping.S => SPECIALIZED_OOP_OOP_ITERATE_CLOSURES_S f
  | Grouping.MS => SPECIALIZED_OOP_OOP_ITERATE_CLOSURES_MS f
  | Grouping.YOUNG_S => SPECIALIZED_SINCE_SAVE_MARKS_CLOSURES_YOUNG_S f

/-- The macro argument that records each invocation `f(kind,suffix)` as one pair. -/
def recordApplication (kind suffix : Ident) : List (Ident × Ident) :=
  [(kind, suffix)]

/-- The invocations of `f` made by expanding a grouping, in expansion order. -/
def Grouping.applications (g : Grouping) : List (Ident × Ident) :=
  g.expand recordApplication

/-- The kinds (first macro arguments) registered in a grouping, in expansion order. -/
def Grouping.kinds (g : Grouping) : List Ident :=
  g.applications.map Prod.fst

/-- The suffixes (second macro arguments) passed in a grouping, in expansion order. -/
def Grouping.suffixes (g : Grouping) : List Ident :=
  g.applications.map Prod.snd

/-- The list of all groupings. -/
def allGroupings : List Grouping :=
  [Grouping.S, Grouping.MS, Grouping.YOUNG_S]

/-- The groupings that contain a given kind. -/
def groupingsOf (k : Ident) : List Grouping :=
  allGroupings.filter (fun g => decide (k ∈ g.kinds))

/-! ## Traversal paths

The header only names the mechanism ("specialized versions of oop_oop_iterate
that invoke the closures' do_oop methods non-virtually"); the traversal functions
themselves are generated elsewhere.  They are modelled below from the
specification's description of the Traversal Engine. -/

/-- Modelled from the spec: the in-object address of one reference-valued field
slot, as handed to a visit operation. -/
abbrev Location := Nat

/-- Modelled from the spec: the object model, which is not part of the header.
An object is given by its shape: the locations of its reference-bearing fields,
in field-declaration order. -/
structure Obj where
  fields : List Location
  deriving DecidableEq

/-- Modelled from the spec: the Field Visitor Capability, which is not part of the
header.  A visitor has a static kind, a dynamic visit capability (the target of
the indirect call) and its own mutable state, which the visit operation may
update at each location. -/
structure Visitor (σ : Type) where
  kind : Ident
  visit : Location → σ → σ
  state : σ

/-- Modelled from the spec: what a traversal does, namely the sequence of
locations on which the visit operation was invoked (in invocation order) and the
state the visitor is left in. -/
structure Run (σ : Type) where
  visited : List Location
  state : σ

/-- Modelled from the spec: one invocation of a visit operation on a location,
appended to the record of the traversal so far. -/
def invoke {σ : Type} (visit : Location → σ → σ) (r : Run σ) (loc : Location) : Run σ :=
  { visited := r.visited ++ [loc], state := visit loc r.state }

/-- Modelled from the spec: the generic path of `traverse`, absent from the
header.  Every reference-bearing field is enumerated in field-declaration order
and the visitor is invoked through its dynamic capability, once per field. -/
def traverse_generic {σ : Type} (o : Obj) (v : Visitor σ) : Run σ :=
  o.fields.foldl (invoke v.visit) { visited := [], state := v.state }

/-- Modelled from the spec: the Specialized Instantiation generated for a kind in
a grouping, absent from the header.  It exists only for a kind registered in the
grouping, and its call to the visit operation is bound at build time to the
concrete implementation `impl kind` of that kind. -/
def specialized_instantiation {σ : Type} (impl : Ident → Location → σ → σ) (g : Grouping)
    (kind : Ident) : Option (Obj → σ → Run σ) :=
  if kind ∈ g.kinds then
    some (fun o s => o.fields.foldl (invoke (impl kind)) { visited := [], state := s })
  else
    none

/-- Modelled from the spec: the specialized path of `traverse`, absent from the
header: the Specialized Instantiation of the visitor's static kind, run on the
object and the visitor's state; `none` when no such instantiation exists. -/
def traverse_specialized {σ : Type} (impl : Ident → Location → σ → σ) (g : Grouping)
    (o : Obj) (v : Visitor σ) : Option (Run σ) :=
  (specialized_instantiation impl g v.kind).map (fun t => t o v.state)

/-! ## Shared lemmas -/

/-- Expanding a grouping with any macro argument `f` is the concatenation of `f`
applied to the recorded invocations, in order. -/
theorem expand_eq_flatMap {α : Type u} (g : Grouping) (f : Ident → Ident → List α) :
    g.expand f = g.applications.flatMap (fun e => f e.1 e.2) := by
  cases g <;>
    simp [Grouping.expand, Grouping.applications, recordApplication,
      SPECIALIZED_OOP_OOP_ITERATE_CLOSURES_S, SPECIALIZED_OOP_OOP_ITERATE_CLOSURES_MS,
      SPECIALIZED_SINCE_SAVE_MARKS_CLOSURES_YOUNG_S]

/-- The kinds of the copying-family grouping. -/
theorem kinds_S :
    Grouping.kinds Grouping.S = ["ScanClosure", "FastScanClosure", "FilteringClosure"] := by
  decide

/-- The kinds of the mark-sweep grouping. -/
theorem kinds_MS :
    Grouping.kinds Grouping.MS = ["MarkAndPushClosure", "AdjustPointerClosure"] := by
  decide

/-- The kinds of the post-checkpoint grouping. -/
theorem kinds_YOUNG_S :
    Grouping.kinds Grouping.YOUNG_S = ["ScanClosure", "FastScanClosure"] := by
  decide

/-- Folding `invoke` over a list of fields appends exactly those fields, in order,
to the record of visited locations. -/
theorem foldl_invoke_visited {σ : Type} (visit : Location → σ → σ) (fields : List Location)
    (r : Run σ) :
    (fields.foldl (invoke visit) r).visited = r.visited ++ fields := by
  induction fields generalizing r with
  | nil => simp
  | cons loc rest ih => simp [List.foldl_cons, ih, invoke]

/-! ## Claims about the registry -/

/-- C1: the filtering kind `FilteringClosure` is registered in the copying-family
grouping and not in the post-checkpoint grouping: for every macro argument `f`
the expansion of either macro is `f` applied to its recorded invocations, the
invocation `f(FilteringClosure,_nv)` is one of those of
`SPECIALIZED_OOP_OOP_ITERATE_CLOSURES_S`, and no invocation of
`SPECIALIZED_SINCE_SAVE_MARKS_CLOSURES_YOUNG_S` has `FilteringClosure` as its kind. -/
theorem FilteringClosure_in_S_not_in_YOUNG_S :
    (∀ (α : Type u) (f : Ident → Ident → List α),
        SPECIALIZED_OOP_OOP_ITERATE_CLOSURES_S f =
          (Grouping.applications Grouping.S).flatMap (fun e => f e.1 e.2)) ∧
    (∀ (α : Type u) (f : Ident → Ident → List α), ∃ before after : List α,
        SPECIALIZED_OOP_OOP_ITERATE_CLOSURES_S f =
          before ++ f "FilteringClosure" "_nv" ++ after) ∧
    ("FilteringClosure", "_nv") ∈ Grouping.applications Grouping.S ∧
    (∀ (α : Type u) (f : Ident → Ident → List α),
        SPECIALIZED_SINCE_SAVE_MARKS_CLOSURES_YOUNG_S f =
          (Grouping.applications Grouping.YOUNG_S).flatMap (fun e => f e.1 e.2)) ∧
    (∀ e ∈ Grouping.applications Grouping.YOUNG_S, e.1 ≠ "FilteringClosure") ∧
    "FilteringClosure" ∉ Grouping.kinds Grouping.YOUNG_S := by
  refine ⟨fun α f => expand_eq_flatMap Grouping.S f, fun α f => ?_, by decide,
    fun α f => expand_eq_flatMap Grouping.YOUNG_S f, by decide, by decide⟩
  exact ⟨f "ScanClosure" "_nv" ++ f "FastScanClosure" "_nv", [], by
    simp [SPECIALIZED_OOP_OOP_ITERATE_CLOSURES_S]⟩

/-- C2: the kinds of the post-checkpoint grouping are exactly the kinds of the
copying-family grouping with `FilteringClosure` removed: every post-checkpoint
kind is a copying-family kind, and every copying-family kind other than
`FilteringClosure` is a post-checkpoint kind. -/
theorem YOUNG_S_eq_S_without_FilteringClosure :
    (∀ k : Ident, k ∈ Grouping.kinds Grouping.YOUNG_S ↔
        (k ∈ Grouping.kinds Grouping.S ∧ k ≠ "FilteringClosure")) ∧
    Grouping.kinds Grouping.YOUNG_S =
      (Grouping.kinds Grouping.S).filter (fun k => decide (k ≠ "FilteringClosure")) := by
  have hfilter : Grouping.kinds Grouping.YOUNG_S =
      (Grouping.kinds Grouping.S).filter (fun k => decide (k ≠ "FilteringClosure")) := by
    decide
  refine ⟨fun k => ?_, hfilter⟩
  rw [hfilter, List.mem_filter]
  simp

/-- C3: the copying-family grouping registers exactly the three kinds
`ScanClosure`, `FastScanClosure` and `FilteringClosure`, and no others. -/
theorem S_registers_exactly_three :
    Grouping.kinds Grouping.S = ["ScanClosure", "FastScanClosure", "FilteringClosure"] ∧
    (Grouping.applications Grouping.S).length = 3 ∧
    (∀ k : Ident, k ∈ Grouping.kinds Grouping.S ↔
        (k = "ScanClosure" ∨ k = "FastScanClosure" ∨ k = "FilteringClosure")) ∧
    (∀ (α : Type u) (f : Ident → Ident → List α),
        SPECIALIZED_OOP_OOP_ITERATE_CLOSURES_S f =
          (Grouping.kinds Grouping.S).flatMap (fun k => f k "_nv")) := by
  refine ⟨by decide, by decide, fun k => ?_, fun α f => ?_⟩
  · rw [kinds_S]; simp
  · rw [kinds_S]; simp [SPECIALIZED_OOP_OOP_ITERATE_CLOSURES_S]

/-- C4: the mark-sweep grouping registers exactly the two kinds
`MarkAndPushClosure` and `AdjustPointerClosure`, and no others. -/
theorem MS_registers_exactly_two :
    Grouping.kinds Grouping.MS = ["MarkAndPushClosure", "AdjustPointerClosure"] ∧
    (Grouping.applications Grouping.MS).length = 2 ∧
    (∀ k : Ident, k ∈ Grouping.kinds Grouping.MS ↔
        (k = "MarkAndPushClosure" ∨ k = "AdjustPointerClosure")) ∧
    (∀ (α : Type u) (f : Ident → Ident → List α),
        SPECIALIZED_OOP_OOP_ITERATE_CLOSURES_MS f =
          (Grouping.kinds Grouping.MS).flatMap (fun k => f k "_nv")) := by
  refine ⟨by decide, by decide, fun k => ?_, fun α f => ?_⟩
  · rw [kinds_MS]; simp
  · rw [kinds_MS]; simp [SPECIALIZED_OOP_OOP_ITERATE_CLOSURES_MS]

/-- C5: in each of the three groupings no kind is registered more than once, so
expanding the grouping with any `f` applies `f` to each of its kinds exactly once:
the expansion is `f` applied to the recorded invocations, whose kinds are pairwise
distinct, and each registered kind is the kind of exactly one invocation. -/
theorem registrations_unique (g : Grouping) :
    (g.kinds).Nodup ∧
    (∀ (α : Type u) (f : Ident → Ident → List α),
        g.expand f = g.applications.flatMap (fun e => f e.1 e.2)) ∧
    (∀ k ∈ g.kinds, (g.applications.filter (fun e => decide (e.1 = k))).length = 1) := by
  refine ⟨?_, fun α f => expand_eq_flatMap g f, ?_⟩
  · cases g <;> decide
  · cases g <;> decide

/-- Witness for C5 in the copying-family grouping: `ScanClosure` is registered
there and is the kind of exactly one of its invocations. -/
theorem registrations_unique_witness :
    "ScanClosure" ∈ Grouping.kinds Grouping.S ∧
    ((Grouping.applications Grouping.S).filter
      (fun e => decide (e.1 = "ScanClosure"))).length = 1 :=
  ⟨by decide, (registrations_unique.{0} Grouping.S).2.2 "ScanClosure" (by decide)⟩

/-- C6, as stated, fails: `ScanClosure` is registered in two different groupings,
`SPECIALIZED_OOP_OOP_ITERATE_CLOSURES_S` and
`SPECIALIZED_SINCE_SAVE_MARKS_CLOSURES_YOUNG_S`, so there is no unique grouping
that contains it. -/
theorem ScanClosure_in_two_groupings :
    "ScanClosure" ∈ Grouping.kinds Grouping.S ∧
    "ScanClosure" ∈ Grouping.kinds Grouping.YOUNG_S ∧
    Grouping.S ≠ Grouping.YOUNG_S ∧
    groupingsOf "ScanClosure" = [Grouping.S, Grouping.YOUNG_S] ∧
    ¬ (∃! g : Grouping, "ScanClosure" ∈ g.kinds) := by
  refine ⟨by decide, by decide, by decide, by decide, ?_⟩
  rintro ⟨g, -, huniq⟩
  have h1 : Grouping.S = g := huniq Grouping.S (by decide)
  have h2 : Grouping.YOUNG_S = g := huniq Grouping.YOUNG_S (by decide)
  exact absurd (h1.trans h2.symm) (by decide)

/-- C6, amended: every kind that appears in any of the three groupings is
contained in exactly one of the two collector-family groupings
`SPECIALIZED_OOP_OOP_ITERATE_CLOSURES_S` and `SPECIALIZED_OOP_OOP_ITERATE_CLOSURES_MS`;
the post-checkpoint grouping only repeats kinds of the former, so a kind is
contained in two groupings when it is `ScanClosure` or `FastScanClosure` and in
one grouping otherwise. -/
theorem kind_in_exactly_one_family (k : Ident) (g : Grouping) (hk : k ∈ g.kinds) :
    ((k ∈ Grouping.kinds Grouping.S ∧ k ∉ Grouping.kinds Grouping.MS) ∨
      (k ∈ Grouping.kinds Grouping.MS ∧ k ∉ Grouping.kinds Grouping.S)) ∧
    (k ∈ Grouping.kinds Grouping.YOUNG_S → k ∈ Grouping.kinds Grouping.S) ∧
    (groupingsOf k).length =
      (if k = "ScanClosure" ∨ k = "FastScanClosure" then 2 else 1) := by
  have hall : ∀ g : Grouping, ∀ k ∈ g.kinds,
      ((k ∈ Grouping.kinds Grouping.S ∧ k ∉ Grouping.kinds Grouping.MS) ∨
        (k ∈ Grouping.kinds Grouping.MS ∧ k ∉ Grouping.kinds Grouping.S)) ∧
      (k ∈ Grouping.kinds Grouping.YOUNG_S → k ∈ Grouping.kinds Grouping.S) ∧
      (groupingsOf k).length =
        (if k = "ScanClosure" ∨ k = "FastScanClosure" then 2 else 1) := by
    intro g
    cases g <;> decide
  exact hall g k hk

/-- Witness for the amended C6: `FilteringClosure`, registered in the
copying-family grouping, is in that family only and in one grouping only. -/
theorem kind_in_exactly_one_family_witness :
    "FilteringClosure" ∈ Grouping.kinds Grouping.S ∧
    ((("FilteringClosure" ∈ Grouping.kinds Grouping.S ∧
          "FilteringClosure" ∉ Grouping.kinds Grouping.MS) ∨
        ("FilteringClosure" ∈ Grouping.kinds Grouping.MS ∧
          "FilteringClosure" ∉ Grouping.kinds Grouping.S)) ∧
      ("FilteringClosure" ∈ Grouping.kinds Grouping.YOUNG_S →
        "FilteringClosure" ∈ Grouping.kinds Grouping.S) ∧
      (groupingsOf "FilteringClosure").length =
        (if "FilteringClosure" = "ScanClosure" ∨ "FilteringClosure" = "FastScanClosure"
          then 2 else 1)) :=
  ⟨by decide, kind_in_exactly_one_family "FilteringClosure" Grouping.S (by decide)⟩

/-- C8: every registration in every grouping requests the non-virtual variant:
each invocation of `f` passes the suffix `_nv` as its second argument and no
other suffix occurs, so for every `f` the expansion of a grouping is `f k _nv`
over its kinds `k`. -/
theorem every_registration_passes_nv (g : Grouping) :
    (∀ e ∈ g.applications, e.2 = "_nv") ∧
    g.suffixes = List.replicate g.kinds.length "_nv" ∧
    0 < g.applications.length ∧
    (∀ (α : Type u) (f : Ident → Ident → List α),
        g.expand f = g.kinds.flatMap (fun k => f k "_nv")) := by
  refine ⟨?_, ?_, ?_, fun α f => ?_⟩
  · cases g <;> decide
  · cases g <;> decide
  · cases g <;> decide
  · cases g
    · rw [kinds_S]
      simp [Grouping.expand, SPECIALIZED_OOP_OOP_ITERATE_CLOSURES_S]
    · rw [kinds_MS]
      simp [Grouping.expand, SPECIALIZED_OOP_OOP_ITERATE_CLOSURES_MS]
    · rw [kinds_YOUNG_S]
      simp [Grouping.expand, SPECIALIZED_SINCE_SAVE_MARKS_CLOSURES_YOUNG_S]

/-- C9: the two collector families are disjoint: no kind of the copying-family
grouping is a kind of the mark-sweep grouping, and no mark-sweep kind is in the
post-checkpoint grouping (whose kinds are all copying-family kinds). -/
theorem families_disjoint :
    (∀ k ∈ Grouping.kinds Grouping.S, k ∉ Grouping.kinds Grouping.MS) ∧
    (∀ k ∈ Grouping.kinds Grouping.YOUNG_S, k ∈ Grouping.kinds Grouping.S) ∧
    (∀ k ∈ Grouping.kinds Grouping.MS, k ∉ Grouping.kinds Grouping.YOUNG_S) ∧
    List.Disjoint (Grouping.kinds Grouping.S) (Grouping.kinds Grouping.MS) ∧
    List.Disjoint (Grouping.kinds Grouping.MS) (Grouping.kinds Grouping.YOUNG_S) := by
  have h1 : ∀ k ∈ Grouping.kinds Grouping.S, k ∉ Grouping.kinds Grouping.MS := by decide
  have h2 : ∀ k ∈ Grouping.kinds Grouping.YOUNG_S, k ∈ Grouping.kinds Grouping.S := by decide
  have h3 : ∀ k ∈ Grouping.kinds Grouping.MS, k ∉ Grouping.kinds Grouping.YOUNG_S :=
    fun k hms hyoung => h1 k (h2 k hyoung) hms
  exact ⟨h1, h2, h3, fun k hs hms => h1 k hs hms, fun k hms hy => h3 k hms hy⟩

/-- C10: the forward-declared classes and the registered kinds coincide: every
kind of any of the three groupings is one of the five forward-declared classes,
every forward-declared class is registered in
`SPECIALIZED_OOP_OOP_ITERATE_CLOSURES_S` or `SPECIALIZED_OOP_OOP_ITERATE_CLOSURES_MS`,
the classes declared under the DefNew heading are the kinds of the former and
those declared under the MarkSweep heading are the kinds of the latter. -/
theorem declarations_coincide_with_registrations :
    declaredClasses = ["ScanClosure", "FastScanClosure", "FilteringClosure",
      "MarkAndPushClosure", "AdjustPointerClosure"] ∧
    (∀ g : Grouping, ∀ k ∈ g.kinds, k ∈ declaredClasses) ∧
    (∀ k ∈ declaredClasses,
        k ∈ Grouping.kinds Grouping.S ∨ k ∈ Grouping.kinds Grouping.MS) ∧
    declaredUnder Heading.DefNew = Grouping.kinds Grouping.S ∧
    declaredUnder Heading.MarkSweep = Grouping.kinds Grouping.MS ∧
    (∀ k ∈ declaredUnder Heading.DefNew, k ∈ Grouping.kinds Grouping.S) ∧
    (∀ k ∈ declaredUnder Heading.MarkSweep, k ∈ Grouping.kinds Grouping.MS) := by
  refine ⟨by decide, ?_, by decide, by decide, by decide, by decide, by decide⟩
  intro g
  cases g <;> decide

/-! ## Claim about the traversal paths -/

/-- C7: for every object and every visitor whose kind is registered in a
grouping, the specialized path exists and invokes the visit operation on exactly
the same sequence of field locations as the generic path, in the same order and
with the same count, namely on the object's fields in declaration order; when the
visitor's dynamic capability is the concrete implementation of its kind, the two
paths also leave the visitor in the same state. -/
theorem specialized_path_visits_same_locations {σ : Type}
    (impl : Ident → Location → σ → σ) (g : Grouping) (o : Obj) (v : Visitor σ)
    (hreg : v.kind ∈ g.kinds) :
    ∃ r : Run σ, traverse_specialized impl g o v = some r ∧
      r.visited = (traverse_generic o v).visited ∧
      r.visited.length = (traverse_generic o v).visited.length ∧
      r.visited = o.fields ∧
      (v.visit = impl v.kind → r.state = (traverse_generic o v).state) := by
  refine ⟨o.fields.foldl (invoke (impl v.kind)) ⟨[], v.state⟩, ?_, ?_, ?_, ?_, ?_⟩
  · simp [traverse_specialized, specialized_instantiation, hreg]
  · simp [traverse_generic, foldl_invoke_visited]
  · simp [traverse_generic, foldl_invoke_visited]
  · simp [foldl_invoke_visited]
  · intro hv
    simp [traverse_generic, hv]

/-- Witness for C7: an object with three reference fields traversed by a visitor
of the registered kind `FastScanClosure` that counts the locations it is given. -/
theorem specialized_path_visits_same_locations_witness :
    "FastScanClosure" ∈ Grouping.kinds Grouping.S ∧
    ∃ r : Run Nat,
      traverse_specialized (fun _ loc s => s + loc) Grouping.S (Obj.mk [8, 16, 24])
        (Visitor.mk "FastScanClosure" (fun loc s => s + loc) 0) = some r ∧
      r.visited = (traverse_generic (Obj.mk [8, 16, 24])
        (Visitor.mk "FastScanClosure" (fun loc s => s + loc) 0)).visited ∧
      r.visited.length = (traverse_generic (Obj.mk [8, 16, 24])
        (Visitor.mk "FastScanClosure" (fun loc s => s + loc) 0)).visited.length ∧
      r.visited = [8, 16, 24] ∧
      (((fun loc s => s + loc) : Location → Nat → Nat) =
          (fun _ loc s => s + loc) "FastScanClosure" →
        r.state = (traverse_generic (Obj.mk [8, 16, 24])
          (Visitor.mk "FastScanClosure" (fun loc s => s + loc) 0)).state) :=
  ⟨by decide,
    specialized_path_visits_same_locations (fun _ loc s => s + loc) Grouping.S
      (Obj.mk [8, 16, 24]) (Visitor.mk "FastScanClosure" (fun loc s => s + loc) 0)
      (by decide)⟩

end SerialSpecializedOopClosures
